import Mathlib

/-!
Verification development for the reminder scheduler in
src/teams_agent/reminders.py (store, destination codec, dispatch adapter,
tick scheduler).  The SQLite table is modelled as a list of rows in rowid
(insertion) order; TEXT values compared by SQLite are modelled as their
UTF-8 byte lists compared bytewise (BINARY collation).
-/

namespace Reminders

/-- Strict bytewise comparison of byte lists, as performed by the SQLite
BINARY collation on TEXT values (memcmp order: a proper prefix sorts first). -/
def bytesLt : List Nat → List Nat → Bool
  | [], [] => false
  | [], _ :: _ => true
  | _ :: _, [] => false
  | x :: xs, y :: ys => x < y || (x == y && bytesLt xs ys)

/-- Bytewise less-or-equal, the comparison used by the query filter
due_at_utc <= ? of fetch_due. -/
def bytesLe (a b : List Nat) : Bool :=
  a == b || bytesLt a b

theorem bytesLt_irrefl (a : List Nat) : bytesLt a a = false := by
  induction a with
  | nil => rfl
  | cons x xs ih => simp [bytesLt, ih]

theorem bytesLt_trans {a b c : List Nat} (hab : bytesLt a b = true)
    (hbc : bytesLt b c = true) : bytesLt a c = true := by
  induction a generalizing b c with
  | nil =>
    cases b with
    | nil => simp [bytesLt] at hab
    | cons y ys =>
      cases c with
      | nil => simp [bytesLt] at hbc
      | cons z zs => simp [bytesLt]
  | cons x xs ih =>
    cases b with
    | nil => simp [bytesLt] at hab
    | cons y ys =>
      cases c with
      | nil => simp [bytesLt] at hbc
      | cons z zs =>
        simp only [bytesLt, Bool.or_eq_true, Bool.and_eq_true, beq_iff_eq,
          decide_eq_true_eq] at hab hbc ⊢
        rcases hab with h1 | ⟨h1, h1r⟩ <;> rcases hbc with h2 | ⟨h2, h2r⟩
        · exact Or.inl (Nat.lt_trans h1 h2)
        · exact Or.inl (h2 ▸ h1)
        · exact Or.inl (h1 ▸ h2)
        · exact Or.inr ⟨h1.trans h2, ih h1r h2r⟩

theorem bytesLt_connex {a b : List Nat} (hab : bytesLt a b = false)
    (hba : bytesLt b a = false) : a = b := by
  induction a generalizing b with
  | nil =>
    cases b with
    | nil => rfl
    | cons y ys => simp [bytesLt] at hab
  | cons x xs ih =>
    cases b with
    | nil => simp [bytesLt] at hba
    | cons y ys =>
      simp only [bytesLt, Bool.or_eq_false_iff, Bool.and_eq_false_iff,
        beq_eq_false_iff_ne, ne_eq, decide_eq_false_iff_not] at hab hba
      obtain ⟨h1, h2⟩ := hab
      obtain ⟨h3, h4⟩ := hba
      have hxy : x = y := by omega
      subst hxy
      rcases h2 with h2 | h2
      · exact absurd rfl h2
      · rcases h4 with h4 | h4
        · exact absurd rfl h4
        · exact congrArg (x :: ·) (ih h2 h4)

theorem bytesLt_asymm {a b : List Nat} (hab : bytesLt a b = true) :
    bytesLt b a = false := by
  by_contra h
  have hba : bytesLt b a = true := by
    cases hh : bytesLt b a
    · exact absurd hh h
    · rfl
  have := bytesLt_trans hab hba
  rw [bytesLt_irrefl] at this
  exact Bool.false_ne_true this

/-- JSON values as far as the stored conversation reference needs them:
the dict produced by conv_ref_to_dict maps string keys to strings or to
nested dicts. -/
inductive JVal where
  | str : String → JVal
  | obj : List (String × JVal) → JVal
  | null : JVal

/-- Plain dict holding a serialized conversation reference. -/
abbrev CRDict := List (String × JVal)

/-- Row of the reminders table.  conversation_ref models the result of
json.loads on the stored TEXT column: some d when the text parses as the
dict d, none when the bytes are corrupted and json.loads raises. -/
structure Row where
  id : Nat
  due_at_utc : List Nat
  text : String
  conversation_ref : Option CRDict
  sent : Nat

/-- In-memory Reminder record produced by row_to_reminder. -/
structure Reminder where
  id : Nat
  due_at_utc : List Nat
  text : String
  conversation_ref : CRDict
  sent : Nat

/-- Function _row_to_reminder: json.loads of the stored conversation_ref
raises on corrupted bytes, modelled as the error branch. -/
def row_to_reminder (r : Row) : Except String Reminder :=
  match r.conversation_ref with
  | some d => .ok ⟨r.id, r.due_at_utc, r.text, d, r.sent⟩
  | none => .error "DecodingError"

/-- List-comprehension step of fetch_due: convert every fetched row, left to
right, failing on the first row whose stored reference does not decode. -/
def rowsToReminders : List Row → Except String (List Reminder)
  | [] => .ok []
  | r :: rs =>
    match row_to_reminder r with
    | .error e => .error e
    | .ok x =>
      match rowsToReminders rs with
      | .error e => .error e
      | .ok xs => .ok (x :: xs)

/-- Insertion step of the stable sort modelling ORDER BY due_at_utc ASC:
the inserted row goes in front of the first element not strictly below it,
so rows that compare equal keep their original (rowid) order. -/
def insertByDue (r : Row) : List Row → List Row
  | [] => [r]
  | x :: xs =>
    if bytesLt x.due_at_utc r.due_at_utc then x :: insertByDue r xs
    else r :: x :: xs

/-- Stable sort by due_at_utc bytes, modelling ORDER BY due_at_utc ASC over
the rowid-ordered table scan. -/
def sortByDue : List Row → List Row
  | [] => []
  | x :: xs => insertByDue x (sortByDue xs)

/-- Function fetch_due: SELECT * FROM reminders WHERE sent=0 AND
due_at_utc <= ? ORDER BY due_at_utc ASC, then convert each row. -/
def fetch_due (db : List Row) (now : List Nat) : Except String (List Reminder) :=
  rowsToReminders
    (sortByDue (db.filter (fun r => r.sent == 0 && bytesLe r.due_at_utc now)))

/-- Function mark_sent: UPDATE reminders SET sent=1 WHERE id=?. -/
def mark_sent (reminder_id : Nat) (db : List Row) : List Row :=
  db.map (fun r => if r.id = reminder_id then { r with sent := 1 } else r)

/-- Largest id present in the table (0 when empty). -/
def maxId (db : List Row) : Nat :=
  db.foldr (fun r m => max r.id m) 0

/-- Id assigned by INTEGER PRIMARY KEY AUTOINCREMENT to the next insert
(rows are never deleted in this system). -/
def nextId (db : List Row) : Nat :=
  maxId db + 1

/-- Aware UTC datetime, the value datetime.now(timezone.utc) produces,
split into the fields isoformat prints. -/
structure UtcTime where
  year : Nat
  month : Nat
  day : Nat
  hour : Nat
  minute : Nat
  second : Nat
  microsecond : Nat
deriving DecidableEq

/-- Field bounds every Python datetime satisfies (MINYEAR 1, MAXYEAR 9999). -/
def UtcTime.Valid (t : UtcTime) : Prop :=
  1 ≤ t.year ∧ t.year ≤ 9999 ∧ 1 ≤ t.month ∧ t.month ≤ 12 ∧
  1 ≤ t.day ∧ t.day ≤ 31 ∧ t.hour ≤ 23 ∧ t.minute ≤ 59 ∧
  t.second ≤ 59 ∧ t.microsecond ≤ 999999

instance (t : UtcTime) : Decidable t.Valid := by
  unfold UtcTime.Valid
  infer_instance

/-- Zero-padded fixed-width decimal rendering of n, as the byte codes of the
w digit characters (most significant first). -/
def padDigits : Nat → Nat → List Nat
  | 0, _ => []
  | w + 1, n => padDigits w (n / 10) ++ [48 + n % 10]

/-- UTF-8 bytes of datetime.isoformat() for an aware UTC datetime:
YYYY-MM-DDTHH:MM:SS followed by .ffffff only when the microsecond field is
nonzero, followed by the +00:00 offset.  Byte codes: 45 is the hyphen, 84 is
T, 58 is the colon, 46 is the dot, 43 is the plus sign, 48 is the zero digit. -/
def isoBytes (t : UtcTime) : List Nat :=
  padDigits 4 t.year ++ ([45] ++ (padDigits 2 t.month ++ ([45] ++
    (padDigits 2 t.day ++ ([84] ++ (padDigits 2 t.hour ++ ([58] ++
    (padDigits 2 t.minute ++ ([58] ++ (padDigits 2 t.second ++
    ((if t.microsecond == 0 then [] else [46] ++ padDigits 6 t.microsecond) ++
      [43, 48, 48, 58, 48, 48])))))))))))

/-- Chronological strict order on UTC datetimes: lexicographic on the field
tuple year, month, day, hour, minute, second, microsecond. -/
def chronoLt (t1 t2 : UtcTime) : Prop :=
  t1.year < t2.year ∨ (t1.year = t2.year ∧
    (t1.month < t2.month ∨ (t1.month = t2.month ∧
      (t1.day < t2.day ∨ (t1.day = t2.day ∧
        (t1.hour < t2.hour ∨ (t1.hour = t2.hour ∧
          (t1.minute < t2.minute ∨ (t1.minute = t2.minute ∧
            (t1.second < t2.second ∨ (t1.second = t2.second ∧
              t1.microsecond < t2.microsecond)))))))))))

/-- Chronological order, reflexive version. -/
def chronoLe (t1 t2 : UtcTime) : Prop :=
  chronoLt t1 t2 ∨ t1 = t2

instance (t1 t2 : UtcTime) : Decidable (chronoLt t1 t2) := by
  unfold chronoLt
  infer_instance

instance (t1 t2 : UtcTime) : Decidable (chronoLe t1 t2) := by
  unfold chronoLe
  infer_instance

/-- Length of a month in the proleptic Gregorian calendar used by datetime. -/
def daysInMonth (y m : Nat) : Nat :=
  if m == 2 then
    (if (y % 4 == 0 && y % 100 != 0) || y % 400 == 0 then 29 else 28)
  else if m == 4 || m == 6 || m == 9 || m == 11 then 30 else 31

/-- Calendar successor of a date (time fields untouched). -/
def nextDay (t : UtcTime) : UtcTime :=
  if t.day < daysInMonth t.year t.month then { t with day := t.day + 1 }
  else if t.month < 12 then { t with day := 1, month := t.month + 1 }
  else { t with day := 1, month := 1, year := t.year + 1 }

/-- Advance the calendar date by n days. -/
def addDays : UtcTime → Nat → UtcTime
  | t, 0 => t
  | t, n + 1 => addDays (nextDay t) n

/-- Model of datetime + timedelta(minutes=m): exact time arithmetic with
carry from minutes into hours and days. -/
def addMinutes (t : UtcTime) (m : Nat) : UtcTime :=
  let total := t.hour * 60 + t.minute + m
  addDays { t with hour := total / 60 % 24, minute := total % 60 }
    (total / (60 * 24))

/-- ChannelAccount fields carried by a conversation reference (botbuilder
schema); every field is optional and dumped only when present. -/
structure ChannelAccount where
  id : Option String
  name : Option String
  aad_object_id : Option String
  role : Option String
deriving DecidableEq

/-- ConversationAccount fields carried by a conversation reference. -/
structure ConversationAccount where
  id : Option String
  name : Option String
  conversation_type : Option String
  tenant_id : Option String
  aad_object_id : Option String
  role : Option String
deriving DecidableEq

/-- ConversationReference, the live destination handle the host messaging
layer produces (botbuilder.schema.ConversationReference). -/
structure ConversationReference where
  activity_id : Option String
  user : Option ChannelAccount
  bot : Option ChannelAccount
  conversation : Option ConversationAccount
  channel_id : Option String
  service_url : Option String
  locale : Option String

/-- Key-value entry emitted only when the field is present, modelling the
exclude_none=True behaviour of the pydantic dump. -/
def optEntry (k : String) : Option JVal → CRDict
  | some v => [(k, v)]
  | none => []

/-- Dump of a ChannelAccount into a plain dict, omitting absent fields. -/
def channelAccountToDict (a : ChannelAccount) : CRDict :=
  optEntry "id" (a.id.map .str) ++ (optEntry "name" (a.name.map .str) ++
    (optEntry "aad_object_id" (a.aad_object_id.map .str) ++
      optEntry "role" (a.role.map .str)))

/-- Dump of a ConversationAccount into a plain dict, omitting absent fields. -/
def conversationAccountToDict (a : ConversationAccount) : CRDict :=
  optEntry "id" (a.id.map .str) ++ (optEntry "name" (a.name.map .str) ++
    (optEntry "conversation_type" (a.conversation_type.map .str) ++
      (optEntry "tenant_id" (a.tenant_id.map .str) ++
        (optEntry "aad_object_id" (a.aad_object_id.map .str) ++
          optEntry "role" (a.role.map .str)))))

/-- Dump performed by the two pydantic branches of _conv_ref_to_dict:
model_dump(exclude_none=True) on pydantic v2 and dict(exclude_none=True) on
pydantic v1 both emit the same nested plain dict, recursively dumping the
account models and omitting every absent field. -/
def model_dump_dict (cr : ConversationReference) : CRDict :=
  optEntry "activity_id" (cr.activity_id.map .str) ++
    (optEntry "user" (cr.user.map (fun a => .obj (channelAccountToDict a))) ++
      (optEntry "bot" (cr.bot.map (fun a => .obj (channelAccountToDict a))) ++
        (optEntry "conversation"
            (cr.conversation.map (fun a => .obj (conversationAccountToDict a))) ++
          (optEntry "channel_id" (cr.channel_id.map .str) ++
            (optEntry "service_url" (cr.service_url.map .str) ++
              optEntry "locale" (cr.locale.map .str))))))

/-- Python attribute value written into the stored JSON: json.dumps renders
None as null. -/
def optStrJVal : Option String → JVal
  | some s => .str s
  | none => .null

/-- Defensive fallback branch of _conv_ref_to_dict, taken when the handle
has neither a model_dump nor a dict attribute: the live path for the msrest
botbuilder.schema.ConversationReference that get_conversation_reference
builds.  Its keys are always present, with getattr chains defaulting to
None: only id and name of bot and user and only id of conversation survive,
and activity_id and every other account field are dropped. -/
def fallback_conv_ref_to_dict (cr : ConversationReference) : CRDict :=
  [("bot", .obj [("id", optStrJVal (cr.bot.bind (fun a => a.id))),
                 ("name", optStrJVal (cr.bot.bind (fun a => a.name)))]),
   ("user", .obj [("id", optStrJVal (cr.user.bind (fun a => a.id))),
                  ("name", optStrJVal (cr.user.bind (fun a => a.name)))]),
   ("conversation",
    .obj [("id", optStrJVal (cr.conversation.bind (fun a => a.id)))]),
   ("channel_id", optStrJVal cr.channel_id),
   ("service_url", optStrJVal cr.service_url),
   ("locale", optStrJVal cr.locale)]

/-- Which dump attribute hasattr finds on the live handle, selecting the
branch of _conv_ref_to_dict that runs for it. -/
inductive HandleKind where
  | pydantic_v2
  | pydantic_v1
  | fallback
deriving DecidableEq

/-- Live destination handle: the conversation reference data together with
the kind of model object that carries it in the host messaging layer. -/
structure LiveHandle where
  kind : HandleKind
  ref : ConversationReference

/-- Function _conv_ref_to_dict, all three branches: pydantic v2 model_dump,
pydantic v1 dict (same exclude_none key-value content), and the defensive
fallback for any other handle. -/
def conv_ref_to_dict (h : LiveHandle) : CRDict :=
  match h.kind with
  | .pydantic_v2 => model_dump_dict h.ref
  | .pydantic_v1 => model_dump_dict h.ref
  | .fallback => fallback_conv_ref_to_dict h.ref

/-- Reading of one constructor keyword by the msrest model: a missing key or
a null value leaves the optional attribute unset, a string is stored as is;
the constructor validates nothing. -/
def jvalToOptStr : Option JVal → Option String
  | some (.str s) => some s
  | _ => none

/-- Content of an account argument of the msrest constructor: the mapping
value carries exactly its listed entries, recorded as the account fields
(absent or null entries unset). -/
def channelAccountOfDict (d : CRDict) : ChannelAccount :=
  ⟨jvalToOptStr (List.lookup "id" d), jvalToOptStr (List.lookup "name" d),
   jvalToOptStr (List.lookup "aad_object_id" d),
   jvalToOptStr (List.lookup "role" d)⟩

/-- Optional account keyword: a mapping is stored with its entries, a
missing key or null leaves the attribute unset. -/
def jvalToOptChannelAccount : Option JVal → Option ChannelAccount
  | some (.obj d) => some (channelAccountOfDict d)
  | _ => none

/-- Content of a conversation argument of the msrest constructor. -/
def conversationAccountOfDict (d : CRDict) : ConversationAccount :=
  ⟨jvalToOptStr (List.lookup "id" d), jvalToOptStr (List.lookup "name" d),
   jvalToOptStr (List.lookup "conversation_type" d),
   jvalToOptStr (List.lookup "tenant_id" d),
   jvalToOptStr (List.lookup "aad_object_id" d),
   jvalToOptStr (List.lookup "role" d)⟩

/-- Optional conversation keyword of the msrest constructor. -/
def jvalToOptConversationAccount : Option JVal → Option ConversationAccount
  | some (.obj d) => some (conversationAccountOfDict d)
  | _ => none

/-- Function _dict_to_conv_ref: ConversationReference(**data) on the msrest
botbuilder.schema model, which assigns each known keyword without
validation; keywords the dict does not carry default to None. -/
def dict_to_conv_ref (d : CRDict) : ConversationReference :=
  ⟨jvalToOptStr (List.lookup "activity_id" d),
   jvalToOptChannelAccount (List.lookup "user" d),
   jvalToOptChannelAccount (List.lookup "bot" d),
   jvalToOptConversationAccount (List.lookup "conversation" d),
   jvalToOptStr (List.lookup "channel_id" d),
   jvalToOptStr (List.lookup "service_url" d),
   jvalToOptStr (List.lookup "locale" d)⟩

/-- Function save_reminder: compute due_at = now + timedelta(minutes=m),
dump the conversation reference of the current turn handle, insert the row
with sent = 0, and return (lastrowid, due_at).  The stored TEXT columns
appear as their parsed forms: the due time as its isoformat bytes, the
reference as the dict json.loads gives back (json round trips a plain
dict). -/
def save_reminder (db : List Row) (now : UtcTime) (due_in_minutes : Nat)
    (text : String) (handle : LiveHandle) :
    List Row × Nat × UtcTime :=
  let due_at := addMinutes now due_in_minutes
  (db ++ [{ id := nextId db, due_at_utc := isoBytes due_at, text := text,
            conversation_ref := some (conv_ref_to_dict handle), sent := 0 }],
   nextId db, due_at)

/-- Per-cycle scan of setup_scheduler.tick: capture now, fetch the due
records, and for each one in order try to dispatch; a dispatch that returns
normally is followed by mark_sent, a dispatch that raises is only logged.
dispatchOk r is true when _send_proactive returns without raising for r
(covering reference reconstruction and the transport call).  The Bool result
records whether the cycle itself raised, which happens exactly when
fetch_due raises; the per-record try swallows dispatch failures. -/
def tick (db : List Row) (now : List Nat) (dispatchOk : Reminder → Bool) :
    List Row × Bool :=
  match fetch_due db now with
  | .error _ => (db, true)
  | .ok due =>
    (due.foldl (fun s rm => if dispatchOk rm then mark_sent rm.id s else s) db,
     false)

/-- Transport call conventions tried by _send_proactive. -/
inductive Conv where
  | A
  | B
  | C
deriving DecidableEq

/-- Outcome of each adapter entry point for one dispatch call: none means the
awaited call returns, some e means it raises e.  supportsClaims is true when
both create_claims_identity and continue_conversation_with_claims are
callable attributes of the adapter. -/
structure Transport where
  convA : Option String
  convB : Option String
  supportsClaims : Bool
  convC : Option String

/-- Function _send_proactive: try continue_conversation(callback, ref,
app_id); on any exception try continue_conversation(ref, callback, app_id);
on any exception use the claims identity API when the adapter exposes it,
re-raising its failure; when the adapter does not expose it the function
falls through and returns None.  The result pairs the overall outcome with
the list of conventions attempted, in order. -/
def send_proactive (t : Transport) : Except String Unit × List Conv :=
  match t.convA with
  | none => (.ok (), [.A])
  | some _ =>
    match t.convB with
    | none => (.ok (), [.A, .B])
    | some _ =>
      if t.supportsClaims then
        match t.convC with
        | none => (.ok (), [.A, .B, .C])
        | some e => (.error e, [.A, .B, .C])
      else (.ok (), [.A, .B])

/-- Store operations that can run after a given point: an external insert
(save_reminder), the completion mark of the scheduler, or a whole tick
cycle.  fetch_due appears through tick and through the final theorems and
never writes. -/
inductive Op where
  | insertOp (due : List Nat) (text : String) (ref : Option CRDict)
  | markSentOp (i : Nat)
  | tickOp (now : List Nat) (dispatchOk : Reminder → Bool)

/-- Effect of one operation on the table. -/
def applyOp (db : List Row) : Op → List Row
  | .insertOp due text ref =>
    db ++ [{ id := nextId db, due_at_utc := due, text := text,
             conversation_ref := ref, sent := 0 }]
  | .markSentOp i => mark_sent i db
  | .tickOp now f => (tick db now f).1

/-- Effect of a sequence of operations, first to last. -/
def applyOps (db : List Row) : List Op → List Row
  | [] => db
  | op :: ops => applyOps (applyOp db op) ops

/-- Result order of fetch_due on rows: strictly earlier due bytes, or equal
due bytes and strictly smaller id. -/
def dueIdLtRow (a b : Row) : Prop :=
  bytesLt a.due_at_utc b.due_at_utc = true ∨
    (a.due_at_utc = b.due_at_utc ∧ a.id < b.id)

/-- Result order of fetch_due on reminders: strictly earlier due bytes, or
equal due bytes and strictly smaller id. -/
def dueIdLt (a b : Reminder) : Prop :=
  bytesLt a.due_at_utc b.due_at_utc = true ∨
    (a.due_at_utc = b.due_at_utc ∧ a.id < b.id)

theorem dueIdLtRow_trans {a b c : Row} (h1 : dueIdLtRow a b)
    (h2 : dueIdLtRow b c) : dueIdLtRow a c := by
  rcases h1 with h1 | ⟨h1, h1i⟩ <;> rcases h2 with h2 | ⟨h2, h2i⟩
  · exact Or.inl (bytesLt_trans h1 h2)
  · exact Or.inl (h2 ▸ h1)
  · exact Or.inl (h1 ▸ h2)
  · exact Or.inr ⟨h1.trans h2, h1i.trans h2i⟩

theorem mem_insertByDue {x r : Row} {xs : List Row} :
    x ∈ insertByDue r xs ↔ x = r ∨ x ∈ xs := by
  induction xs with
  | nil => simp [insertByDue]
  | cons y ys ih =>
    simp only [insertByDue]
    split
    · simp only [List.mem_cons, ih]
      tauto
    · simp only [List.mem_cons]

theorem mem_sortByDue {x : Row} {l : List Row} :
    x ∈ sortByDue l ↔ x ∈ l := by
  induction l with
  | nil => simp [sortByDue]
  | cons y ys ih =>
    simp only [sortByDue, mem_insertByDue, List.mem_cons, ih]

theorem pairwise_insertByDue {r : Row} {xs : List Row}
    (hs : xs.Pairwise dueIdLtRow) (hid : ∀ x ∈ xs, r.id < x.id) :
    (insertByDue r xs).Pairwise dueIdLtRow := by
  induction xs with
  | nil => simp [insertByDue]
  | cons x xs ih =>
    rw [List.pairwise_cons] at hs
    obtain ⟨hx, hxs⟩ := hs
    simp only [insertByDue]
    split
    · rename_i hlt
      rw [List.pairwise_cons]
      refine ⟨?_, ih hxs (fun y hy => hid y (List.mem_cons_of_mem _ hy))⟩
      intro z hz
      rcases mem_insertByDue.mp hz with rfl | hz2
      · exact Or.inl hlt
      · exact hx z hz2
    · rename_i hnlt
      have hxr : bytesLt x.due_at_utc r.due_at_utc = false := by
        cases hh : bytesLt x.due_at_utc r.due_at_utc
        · rfl
        · exact absurd hh hnlt
      have hrx : dueIdLtRow r x := by
        cases hh : bytesLt r.due_at_utc x.due_at_utc
        · exact Or.inr ⟨bytesLt_connex hh hxr, hid x (List.mem_cons_self x xs)⟩
        · exact Or.inl hh
      rw [List.pairwise_cons]
      refine ⟨?_, List.pairwise_cons.mpr ⟨hx, hxs⟩⟩
      intro z hz
      rcases List.mem_cons.mp hz with rfl | hz2
      · exact hrx
      · exact dueIdLtRow_trans hrx (hx z hz2)

theorem pairwise_sortByDue {l : List Row}
    (h : l.Pairwise (fun a b => a.id < b.id)) :
    (sortByDue l).Pairwise dueIdLtRow := by
  induction l with
  | nil => simp [sortByDue]
  | cons x xs ih =>
    rw [List.pairwise_cons] at h
    obtain ⟨hx, hxs⟩ := h
    exact pairwise_insertByDue (ih hxs)
      (fun y hy => hx y (mem_sortByDue.mp hy))

theorem row_to_reminder_ok {r : Row} {x : Reminder}
    (h : row_to_reminder r = .ok x) :
    x.id = r.id ∧ x.due_at_utc = r.due_at_utc ∧ x.text = r.text ∧
      x.sent = r.sent ∧ r.conversation_ref = some x.conversation_ref := by
  cases hc : r.conversation_ref with
  | none => simp [row_to_reminder, hc] at h
  | some d =>
    simp only [row_to_reminder, hc, Except.ok.injEq] at h
    subst h
    exact ⟨rfl, rfl, rfl, rfl, rfl⟩

theorem rowsToReminders_forall2 :
    ∀ {rows : List Row} {l : List Reminder}, rowsToReminders rows = .ok l →
      List.Forall₂ (fun r x => row_to_reminder r = .ok x) rows l := by
  intro rows
  induction rows with
  | nil =>
    intro l h
    simp only [rowsToReminders, Except.ok.injEq] at h
    subst h
    exact List.Forall₂.nil
  | cons r rs ih =>
    intro l h
    cases hr : row_to_reminder r with
    | error e => simp [rowsToReminders, hr] at h
    | ok x =>
      cases hrs : rowsToReminders rs with
      | error e => simp [rowsToReminders, hr, hrs] at h
      | ok xs =>
        simp only [rowsToReminders, hr, hrs, Except.ok.injEq] at h
        subst h
        exact List.Forall₂.cons hr (ih hrs)

theorem forall2_mem_right {α β : Type} {Q : α → β → Prop} :
    ∀ {l1 : List α} {l2 : List β}, List.Forall₂ Q l1 l2 →
      ∀ {x : β}, x ∈ l2 → ∃ r ∈ l1, Q r x := by
  intro l1 l2 h
  induction h with
  | nil => intro x hx; cases hx
  | cons hq _ ih =>
    intro x hx
    rcases List.mem_cons.mp hx with rfl | hx2
    · exact ⟨_, List.mem_cons_self _ _, hq⟩
    · obtain ⟨r, hr, hqr⟩ := ih hx2
      exact ⟨r, List.mem_cons_of_mem _ hr, hqr⟩

theorem forall2_mem_left {α β : Type} {Q : α → β → Prop} :
    ∀ {l1 : List α} {l2 : List β}, List.Forall₂ Q l1 l2 →
      ∀ {r : α}, r ∈ l1 → ∃ x ∈ l2, Q r x := by
  intro l1 l2 h
  induction h with
  | nil => intro r hr; cases hr
  | cons hq _ ih =>
    intro r hr
    rcases List.mem_cons.mp hr with rfl | hr2
    · exact ⟨_, List.mem_cons_self _ _, hq⟩
    · obtain ⟨x, hx, hqx⟩ := ih hr2
      exact ⟨x, List.mem_cons_of_mem _ hx, hqx⟩

theorem rowsToReminders_error_of_bad {rows : List Row}
    (h : ∃ r ∈ rows, r.conversation_ref = none) :
    ∃ e, rowsToReminders rows = .error e := by
  induction rows with
  | nil =>
    obtain ⟨r, hr, _⟩ := h
    cases hr
  | cons r rs ih =>
    obtain ⟨rb, hrb, hnone⟩ := h
    rcases List.mem_cons.mp hrb with rfl | hmem
    · exact ⟨"DecodingError", by simp [rowsToReminders, row_to_reminder, hnone]⟩
    · cases hr : row_to_reminder r with
      | error e => exact ⟨e, by simp [rowsToReminders, hr]⟩
      | ok x =>
        obtain ⟨e, he⟩ := ih ⟨rb, hmem, hnone⟩
        exact ⟨e, by simp [rowsToReminders, hr, he]⟩

theorem mem_fetch_due_of {db : List Row} {now : List Nat} {l : List Reminder}
    {r : Row} (hok : fetch_due db now = .ok l) (hr : r ∈ db) (hs : r.sent = 0)
    (hle : bytesLe r.due_at_utc now = true) :
    ∃ x ∈ l, x.id = r.id ∧ x.due_at_utc = r.due_at_utc ∧ x.sent = 0 := by
  have hfil : r ∈ List.filter (fun r => r.sent == 0 && bytesLe r.due_at_utc now) db :=
    List.mem_filter.mpr ⟨hr, by simp [hs, hle]⟩
  have hsort : r ∈ sortByDue
      (List.filter (fun r => r.sent == 0 && bytesLe r.due_at_utc now) db) :=
    mem_sortByDue.mpr hfil
  obtain ⟨x, hx, hxr⟩ := forall2_mem_left (rowsToReminders_forall2 hok) hsort
  obtain ⟨h1, h2, _, h4, _⟩ := row_to_reminder_ok hxr
  exact ⟨x, hx, h1, h2, by rw [h4, hs]⟩

theorem fetch_due_mem_inv {db : List Row} {now : List Nat} {l : List Reminder}
    (hok : fetch_due db now = .ok l) {x : Reminder} (hx : x ∈ l) :
    ∃ r ∈ db, row_to_reminder r = .ok x ∧ r.sent = 0 ∧
      bytesLe r.due_at_utc now = true := by
  obtain ⟨r, hr, hrx⟩ := forall2_mem_right (rowsToReminders_forall2 hok) hx
  have hfil := mem_sortByDue.mp hr
  obtain ⟨hmem, hcond⟩ := List.mem_filter.mp hfil
  simp only [Bool.and_eq_true, beq_iff_eq] at hcond
  exact ⟨r, hmem, hrx, hcond.1, hcond.2⟩

theorem pairwise_ne_unique {db : List Row}
    (hu : db.Pairwise (fun a b => a.id ≠ b.id)) :
    ∀ {r1 r2 : Row}, r1 ∈ db → r2 ∈ db → r1.id = r2.id → r1 = r2 := by
  induction db with
  | nil => intro r1 r2 h1; cases h1
  | cons d rest ih =>
    rw [List.pairwise_cons] at hu
    obtain ⟨hd, hrest⟩ := hu
    intro r1 r2 h1 h2 hid
    rcases List.mem_cons.mp h1 with rfl | h1b <;>
      rcases List.mem_cons.mp h2 with rfl | h2b
    · rfl
    · exact absurd hid (hd r2 h2b)
    · exact absurd hid.symm (hd r1 h1b)
    · exact ih hrest h1b h2b hid

theorem foldl_markSent_eq_map (f : Reminder → Bool) :
    ∀ (due : List Reminder) (s : List Row),
      due.foldl (fun s2 rm => if f rm then mark_sent rm.id s2 else s2) s =
        s.map (fun r =>
          if due.any (fun rm => rm.id == r.id && f rm) then { r with sent := 1 }
          else r) := by
  intro due
  induction due with
  | nil =>
    intro s
    simp
  | cons rm rest ih =>
    intro s
    rw [List.foldl_cons, ih]
    by_cases hf : f rm = true
    · simp only [hf, if_true, mark_sent, List.map_map]
      apply List.map_congr_left
      intro r _
      by_cases hid : r.id = rm.id
      · have hb : (rm.id == r.id) = true := beq_iff_eq.mpr hid.symm
        simp [Function.comp, hid, hb, hf, List.any_cons]
      · have hb : (rm.id == r.id) = false := by
          refine beq_eq_false_iff_ne.mpr ?_
          exact fun hh => hid hh.symm
        simp [Function.comp, hid, hb, List.any_cons]
    · have hf2 : f rm = false := by
        cases hh : f rm
        · rfl
        · exact absurd hh hf
      simp only [hf2, Bool.false_eq_true, if_false]
      apply List.map_congr_left
      intro r _
      simp [hf2, List.any_cons]

theorem pairwise_transfer {rows : List Row} {l : List Reminder}
    (h : List.Forall₂ (fun r x => row_to_reminder r = .ok x) rows l)
    (hp : rows.Pairwise dueIdLtRow) : l.Pairwise dueIdLt := by
  induction h with
  | nil => exact List.Pairwise.nil
  | cons hq hrest ih =>
    rw [List.pairwise_cons] at hp
    obtain ⟨ha, hp2⟩ := hp
    rw [List.pairwise_cons]
    refine ⟨?_, ih hp2⟩
    intro y hy
    obtain ⟨b, hb, hqb⟩ := forall2_mem_right hrest hy
    have hab := ha b hb
    obtain ⟨hxa1, hxa2, _, _, _⟩ := row_to_reminder_ok hq
    obtain ⟨hyb1, hyb2, _, _, _⟩ := row_to_reminder_ok hqb
    simp only [dueIdLt, hxa1, hxa2, hyb1, hyb2]
    simp only [dueIdLtRow] at hab
    exact hab

theorem mem_le_maxId {r : Row} {s : List Row} (h : r ∈ s) : r.id ≤ maxId s := by
  induction s with
  | nil => cases h
  | cons d rest ih =>
    rcases List.mem_cons.mp h with rfl | h2
    · exact le_max_left _ _
    · exact le_trans (ih h2) (le_max_right _ _)

/-- C4: a reminder appears in fetch_due(now) iff it is unsent and due at or
before now, and the empty store yields the empty, non-error result.  The
hypothesis that the refs of the selected records decode (fetch_due returned
a list) matches the claim, which speaks about records of the result. -/
theorem fetch_due_visibility (db : List Row) (now : List Nat)
    (l : List Reminder) (r : Row)
    (hu : db.Pairwise (fun a b => a.id ≠ b.id))
    (hr : r ∈ db) (hok : fetch_due db now = .ok l) :
    ((∃ x ∈ l, x.id = r.id) ↔ (r.sent = 0 ∧ bytesLe r.due_at_utc now = true)) ∧
      fetch_due [] now = .ok [] := by
  constructor
  · constructor
    · rintro ⟨x, hx, hxid⟩
      obtain ⟨r2, hr2, hr2x, hr2s, hr2le⟩ := fetch_due_mem_inv hok hx
      obtain ⟨hid2, _, _, _, _⟩ := row_to_reminder_ok hr2x
      have heq : r2 = r := pairwise_ne_unique hu hr2 hr (by rw [← hid2]; exact hxid)
      exact ⟨heq ▸ hr2s, heq ▸ hr2le⟩
    · rintro ⟨hs, hle⟩
      obtain ⟨x, hx, hxid, _, _⟩ := mem_fetch_due_of hok hr hs hle
      exact ⟨x, hx, hxid⟩
  · rfl

/-- C4 witness: a concrete store with one due-unsent row and one future row. -/
theorem fetch_due_visibility_witness :
    ([⟨1, [50], "x", some [], 0⟩, ⟨2, [60], "y", some [], 0⟩] : List Row).Pairwise
        (fun a b => a.id ≠ b.id) ∧
    (⟨1, [50], "x", some [], 0⟩ : Row) ∈
        ([⟨1, [50], "x", some [], 0⟩, ⟨2, [60], "y", some [], 0⟩] : List Row) ∧
    fetch_due [⟨1, [50], "x", some [], 0⟩, ⟨2, [60], "y", some [], 0⟩] [55] =
        .ok [⟨1, [50], "x", [], 0⟩] ∧
    (((∃ x ∈ [(⟨1, [50], "x", [], 0⟩ : Reminder)], x.id = 1) ↔
        ((0 : Nat) = 0 ∧ bytesLe [50] [55] = true)) ∧
      fetch_due [] [55] = .ok []) := by
  refine ⟨?_, List.mem_cons_self _ _, rfl, ?_⟩
  · simp
  · exact fetch_due_visibility
      [⟨1, [50], "x", some [], 0⟩, ⟨2, [60], "y", some [], 0⟩] [55]
      [⟨1, [50], "x", [], 0⟩] ⟨1, [50], "x", some [], 0⟩
      (by simp) (List.mem_cons_self _ _) rfl

/-- C3: the records fetch_due returns are pairwise ordered by strictly
earlier due bytes, ties broken by strictly smaller id, given that the table
scan order carries strictly increasing ids (AUTOINCREMENT insertion order). -/
theorem fetch_due_ordering (db : List Row) (now : List Nat) (l : List Reminder)
    (hids : db.Pairwise (fun a b => a.id < b.id))
    (hok : fetch_due db now = .ok l) :
    l.Pairwise dueIdLt := by
  have hfil : (List.filter (fun r => r.sent == 0 && bytesLe r.due_at_utc now)
      db).Pairwise (fun a b => a.id < b.id) :=
    hids.sublist (List.filter_sublist _)
  exact pairwise_transfer (rowsToReminders_forall2 hok) (pairwise_sortByDue hfil)

/-- C3 witness: two records due at the same byte key come back in id order. -/
theorem fetch_due_ordering_witness :
    ([⟨1, [60], "x", some [], 0⟩, ⟨2, [50], "y", some [], 0⟩,
        ⟨3, [50], "z", some [], 0⟩] : List Row).Pairwise (fun a b => a.id < b.id) ∧
    fetch_due [⟨1, [60], "x", some [], 0⟩, ⟨2, [50], "y", some [], 0⟩,
        ⟨3, [50], "z", some [], 0⟩] [60] =
      .ok [⟨2, [50], "y", [], 0⟩, ⟨3, [50], "z", [], 0⟩, ⟨1, [60], "x", [], 0⟩] ∧
    ([⟨2, [50], "y", [], 0⟩, ⟨3, [50], "z", [], 0⟩,
        ⟨1, [60], "x", [], 0⟩] : List Reminder).Pairwise dueIdLt := by
  refine ⟨by simp, rfl, ?_⟩
  exact fetch_due_ordering
    [⟨1, [60], "x", some [], 0⟩, ⟨2, [50], "y", some [], 0⟩,
      ⟨3, [50], "z", some [], 0⟩] [60]
    [⟨2, [50], "y", [], 0⟩, ⟨3, [50], "z", [], 0⟩, ⟨1, [60], "x", [], 0⟩]
    (by simp) rfl

/-- C7: mark_sent is idempotent, and marking an id not present in the store
leaves the store unchanged and signals no error. -/
theorem mark_sent_idempotent_noop (db : List Row) (i : Nat) :
    mark_sent i (mark_sent i db) = mark_sent i db ∧
      ((∀ r ∈ db, r.id ≠ i) → mark_sent i db = db) := by
  constructor
  · unfold mark_sent
    rw [List.map_map]
    apply List.map_congr_left
    intro r _
    by_cases h : r.id = i
    · simp [Function.comp, h]
    · simp [Function.comp, h]
  · intro hne
    unfold mark_sent
    have h1 : List.map (fun r => if r.id = i then { r with sent := 1 } else r) db
        = List.map (fun r => r) db :=
      List.map_congr_left (fun r hr => if_neg (hne r hr))
    rw [h1, List.map_id']

/-- C7 witness: double marking of id 1 in a one-row store, and marking the
absent id 9 in the same store. -/
theorem mark_sent_idempotent_noop_witness :
    (mark_sent 1 (mark_sent 1 [⟨1, [50], "x", some [], 0⟩]) =
        mark_sent 1 [⟨1, [50], "x", some [], 0⟩]) ∧
    (∀ r ∈ ([⟨1, [50], "x", some [], 0⟩] : List Row), r.id ≠ 9) ∧
    mark_sent 9 [⟨1, [50], "x", some [], 0⟩] = [⟨1, [50], "x", some [], 0⟩] := by
  refine ⟨(mark_sent_idempotent_noop [⟨1, [50], "x", some [], 0⟩] 1).1, ?_, ?_⟩
  · simp
  · exact (mark_sent_idempotent_noop [⟨1, [50], "x", some [], 0⟩] 9).2 (by simp)

/-- C2 counterexample: with a due record carrying corrupted destination bytes
and a second well-formed due record in the same cycle, the cycle raises out
of fetch_due (json.loads runs inside the row conversion), so the well-formed
record is neither dispatched nor marked sent, contrary to the claim. -/
theorem tick_corrupted_blocks_cycle_cex :
    tick [⟨1, [49], "a", none, 0⟩, ⟨2, [49], "b", some [], 0⟩] [49]
        (fun _ => true) =
      ([⟨1, [49], "a", none, 0⟩, ⟨2, [49], "b", some [], 0⟩], true) ∧
      ¬ ∃ r2 ∈ (tick [⟨1, [49], "a", none, 0⟩, ⟨2, [49], "b", some [], 0⟩] [49]
          (fun _ => true)).1, r2.id = 2 ∧ r2.sent = 1 := by
  refine ⟨rfl, ?_⟩
  rintro ⟨r2, hmem, hid, hsent⟩
  have hst : (tick [⟨1, [49], "a", none, 0⟩, ⟨2, [49], "b", some [], 0⟩] [49]
      (fun _ => true)).1 =
      [⟨1, [49], "a", none, 0⟩, ⟨2, [49], "b", some [], 0⟩] := rfl
  rw [hst] at hmem
  rcases List.mem_cons.mp hmem with rfl | hmem2
  · simp at hid
  · rcases List.mem_cons.mp hmem2 with rfl | hmem3
    · simp at hsent
    · cases hmem3

/-- C2 (amended): a due record whose stored destination text fails JSON
decoding makes fetch_due itself raise, so the whole cycle aborts with no
record dispatched or marked sent; a record whose dispatch raises is merely
skipped, and every record whose dispatch succeeds in a cycle whose fetch
decoded is still marked sent regardless of other records failing. -/
theorem tick_decode_failure_behaviour (db : List Row) (now : List Nat)
    (f : Reminder → Bool) :
    ((∃ rr ∈ db, rr.sent = 0 ∧ bytesLe rr.due_at_utc now = true ∧
        rr.conversation_ref = none) → tick db now f = (db, true)) ∧
    (∀ due r, db.Pairwise (fun a b => a.id ≠ b.id) → r ∈ db → r.sent = 0 →
      bytesLe r.due_at_utc now = true → (∀ x : Reminder, x.id = r.id → f x = true) →
      fetch_due db now = .ok due →
      ∃ r2 ∈ (tick db now f).1, r2.id = r.id ∧ r2.sent = 1) := by
  constructor
  · rintro ⟨rr, hmem, hs, hle, hnone⟩
    have hfil : rr ∈ List.filter
        (fun r => r.sent == 0 && bytesLe r.due_at_utc now) db :=
      List.mem_filter.mpr ⟨hmem, by simp [hs, hle]⟩
    obtain ⟨e, he⟩ :=
      rowsToReminders_error_of_bad ⟨rr, mem_sortByDue.mpr hfil, hnone⟩
    have hfe : fetch_due db now = .error e := he
    simp [tick, hfe]
  · intro due r hu hr hs hle hfall hok
    obtain ⟨x, hx, hxid, _, _⟩ := mem_fetch_due_of hok hr hs hle
    have hcond : due.any (fun rm => rm.id == r.id && f rm) = true :=
      List.any_eq_true.mpr ⟨x, hx, by simp [hxid, hfall x hxid]⟩
    refine ⟨{ r with sent := 1 }, ?_, rfl, rfl⟩
    have himg := List.mem_map_of_mem
      (fun r3 => if due.any (fun rm => rm.id == r3.id && f rm) then
        { r3 with sent := 1 } else r3) hr
    simp only [hcond, if_true] at himg
    have hstate : (tick db now f).1 = db.map
        (fun r3 => if due.any (fun rm => rm.id == r3.id && f rm) then
          { r3 with sent := 1 } else r3) := by
      simp [tick, hok, foldl_markSent_eq_map]
    rw [hstate]
    exact himg

/-- C2 (amended) witness: the corrupted-plus-wellformed store aborts whole,
and in a decodable store one failing dispatch does not stop the succeeding
record from being marked. -/
theorem tick_decode_failure_behaviour_witness :
    (∃ rr ∈ ([⟨1, [49], "a", none, 0⟩, ⟨2, [49], "b", some [], 0⟩] : List Row),
        rr.sent = 0 ∧ bytesLe rr.due_at_utc [49] = true ∧
        rr.conversation_ref = none) ∧
    tick [⟨1, [49], "a", none, 0⟩, ⟨2, [49], "b", some [], 0⟩] [49]
        (fun rm => rm.id == 2) =
      ([⟨1, [49], "a", none, 0⟩, ⟨2, [49], "b", some [], 0⟩], true) ∧
    (∃ r2 ∈ (tick [⟨1, [49], "c", some [], 0⟩, ⟨2, [49], "b", some [], 0⟩] [49]
        (fun rm => rm.id == 2)).1, r2.id = 2 ∧ r2.sent = 1) := by
  refine ⟨⟨⟨1, [49], "a", none, 0⟩, List.mem_cons_self _ _, rfl, rfl, rfl⟩, ?_, ?_⟩
  · exact (tick_decode_failure_behaviour
      [⟨1, [49], "a", none, 0⟩, ⟨2, [49], "b", some [], 0⟩] [49]
      (fun rm => rm.id == 2)).1
      ⟨⟨1, [49], "a", none, 0⟩, List.mem_cons_self _ _, rfl, rfl, rfl⟩
  · exact (tick_decode_failure_behaviour
      [⟨1, [49], "c", some [], 0⟩, ⟨2, [49], "b", some [], 0⟩] [49]
      (fun rm => rm.id == 2)).2
      [⟨1, [49], "c", [], 0⟩, ⟨2, [49], "b", [], 0⟩]
      ⟨2, [49], "b", some [], 0⟩
      (by simp) (List.mem_cons_of_mem _ (List.mem_cons_self _ _)) rfl rfl
      (fun x hx => by simp [hx]) rfl

theorem sentInvariant_step {r : Row} {s : List Row} (op : Op)
    (h1 : { r with sent := 1 } ∈ s)
    (h2 : ∀ r2 ∈ s, r2.id = r.id → r2 = { r with sent := 1 }) :
    { r with sent := 1 } ∈ applyOp s op ∧
      ∀ r2 ∈ applyOp s op, r2.id = r.id → r2 = { r with sent := 1 } := by
  cases op with
  | insertOp due text ref =>
    refine ⟨List.mem_append_left _ h1, ?_⟩
    intro r2 hmem hid
    rcases List.mem_append.mp hmem with hin | hnew
    · exact h2 r2 hin hid
    · rcases List.mem_singleton.mp hnew with rfl
      have hle : r.id ≤ maxId s := mem_le_maxId (r := { r with sent := 1 }) h1
      simp only [nextId] at hid
      omega
  | markSentOp i =>
    constructor
    · exact List.mem_map.mpr ⟨{ r with sent := 1 }, h1, by split <;> rfl⟩
    · intro r2 hmem hid
      obtain ⟨r3, hr3, himg⟩ := List.mem_map.mp hmem
      by_cases h : r3.id = i
      · rw [if_pos h] at himg
        have hid3 : r3.id = r.id := by
          rw [← himg] at hid
          exact hid
        have := h2 r3 hr3 hid3
        rw [← himg, this]
      · rw [if_neg h] at himg
        exact himg ▸ h2 r3 hr3 (himg ▸ hid)
  | tickOp now f =>
    have happ : applyOp s (Op.tickOp now f) = (tick s now f).1 := rfl
    rw [happ]
    cases hfd : fetch_due s now with
    | error e =>
      have hst : (tick s now f).1 = s := by simp [tick, hfd]
      rw [hst]
      exact ⟨h1, h2⟩
    | ok due =>
      have hst : (tick s now f).1 = s.map
          (fun r3 => if due.any (fun rm => rm.id == r3.id && f rm) then
            { r3 with sent := 1 } else r3) := by
        simp [tick, hfd, foldl_markSent_eq_map]
      rw [hst]
      constructor
      · exact List.mem_map.mpr ⟨{ r with sent := 1 }, h1, by split <;> rfl⟩
      · intro r2 hmem hid
        obtain ⟨r3, hr3, himg⟩ := List.mem_map.mp hmem
        by_cases h : due.any (fun rm => rm.id == r3.id && f rm) = true
        · rw [if_pos h] at himg
          have hid3 : r3.id = r.id := by
            rw [← himg] at hid
            exact hid
          have := h2 r3 hr3 hid3
          rw [← himg, this]
        · rw [if_neg h] at himg
          exact himg ▸ h2 r3 hr3 (himg ▸ hid)

theorem sentInvariant_ops {r : Row} (ops : List Op) :
    ∀ {s : List Row}, { r with sent := 1 } ∈ s →
      (∀ r2 ∈ s, r2.id = r.id → r2 = { r with sent := 1 }) →
      { r with sent := 1 } ∈ applyOps s ops ∧
        ∀ r2 ∈ applyOps s ops, r2.id = r.id → r2 = { r with sent := 1 } := by
  induction ops with
  | nil => intro s h1 h2; exact ⟨h1, h2⟩
  | cons op ops ih =>
    intro s h1 h2
    obtain ⟨g1, g2⟩ := sentInvariant_step op h1 h2
    exact ih g1 g2

/-- C5: once mark_sent has run for the id of a stored record, the marked
record survives every later insert, mark_sent and tick cycle unchanged with
sent = 1, and no later fetch_due result ever contains that id again. -/
theorem mark_sent_permanent (db : List Row) (r : Row) (ops : List Op)
    (now2 : List Nat) (l : List Reminder)
    (hu : db.Pairwise (fun a b => a.id ≠ b.id)) (hr : r ∈ db) :
    { r with sent := 1 } ∈ applyOps (mark_sent r.id db) ops ∧
      (∀ r2 ∈ applyOps (mark_sent r.id db) ops, r2.id = r.id →
        r2 = { r with sent := 1 }) ∧
      (fetch_due (applyOps (mark_sent r.id db) ops) now2 = .ok l →
        ∀ x ∈ l, x.id ≠ r.id) := by
  have hbase1 : { r with sent := 1 } ∈ mark_sent r.id db := by
    have himg := List.mem_map_of_mem
      (fun r3 => if r3.id = r.id then { r3 with sent := 1 } else r3) hr
    simpa [mark_sent] using himg
  have hbase2 : ∀ r2 ∈ mark_sent r.id db, r2.id = r.id →
      r2 = { r with sent := 1 } := by
    intro r2 hmem hid
    obtain ⟨r3, hr3, himg⟩ := List.mem_map.mp hmem
    by_cases h : r3.id = r.id
    · rw [if_pos h] at himg
      have : r3 = r := pairwise_ne_unique hu hr3 hr h
      rw [← himg, this]
    · rw [if_neg h] at himg
      exact absurd (himg ▸ hid) h
  obtain ⟨g1, g2⟩ := sentInvariant_ops ops hbase1 hbase2
  refine ⟨g1, g2, ?_⟩
  intro hok x hx hxid
  obtain ⟨r4, hr4, hr4x, hr4s, _⟩ := fetch_due_mem_inv hok hx
  obtain ⟨hid4, _, _, _, _⟩ := row_to_reminder_ok hr4x
  have : r4 = { r with sent := 1 } := g2 r4 hr4 (by rw [← hid4]; exact hxid)
  rw [this] at hr4s
  simp at hr4s

/-- C5 witness: mark id 1 sent, then insert a new reminder and run a cycle;
id 1 stays marked and a later fetch_due no longer returns it. -/
theorem mark_sent_permanent_witness :
    ([⟨1, [50], "x", some [], 0⟩] : List Row).Pairwise (fun a b => a.id ≠ b.id) ∧
    (⟨1, [50], "x", some [], 0⟩ : Row) ∈ ([⟨1, [50], "x", some [], 0⟩] : List Row) ∧
    ({ id := 1, due_at_utc := [50], text := "x", conversation_ref := some [],
        sent := 1 } : Row) ∈
      applyOps (mark_sent 1 [⟨1, [50], "x", some [], 0⟩])
        [Op.insertOp [51] "y" (some []), Op.tickOp [60] (fun _ => true)] ∧
    (fetch_due (applyOps (mark_sent 1 [⟨1, [50], "x", some [], 0⟩])
        [Op.insertOp [51] "y" (some []), Op.tickOp [60] (fun _ => true)]) [60] =
      .ok []) := by
  have h := mark_sent_permanent [⟨1, [50], "x", some [], 0⟩]
    ⟨1, [50], "x", some [], 0⟩
    [Op.insertOp [51] "y" (some []), Op.tickOp [60] (fun _ => true)]
    [60] [] (by simp) (List.mem_cons_self _ _)
  exact ⟨by simp, List.mem_cons_self _ _, h.1, by rfl⟩

/-- C6: when the dispatch of a due record raises, the cycle leaves the row
untouched with sent = 0 and calls no mark_sent on it, the record is selected
again by any later fetch_due at or past its due bytes whose decode succeeds,
and a later cycle whose dispatch succeeds for that id marks it sent. -/
theorem dispatch_failure_retry (db : List Row) (now now2 : List Nat)
    (f f2 : Reminder → Bool) (r : Row) (due l2 : List Reminder)
    (hu : db.Pairwise (fun a b => a.id ≠ b.id)) (hr : r ∈ db)
    (hok : fetch_due db now = .ok due)
    (hin : ∃ rm ∈ due, rm.id = r.id)
    (hfail : ∀ rm ∈ due, rm.id = r.id → f rm = false) :
    r ∈ (tick db now f).1 ∧ r.sent = 0 ∧
    (fetch_due (tick db now f).1 now2 = .ok l2 →
      bytesLe r.due_at_utc now2 = true → ∃ x ∈ l2, x.id = r.id) ∧
    ((∀ x : Reminder, x.id = r.id → f2 x = true) →
      fetch_due (tick db now f).1 now2 = .ok l2 →
      bytesLe r.due_at_utc now2 = true →
      ∃ r2 ∈ (tick (tick db now f).1 now2 f2).1, r2.id = r.id ∧ r2.sent = 1) := by
  obtain ⟨rm, hrm, hrmid⟩ := hin
  obtain ⟨r0, hr0, hr0x, hr0s, hr0le⟩ := fetch_due_mem_inv hok hrm
  obtain ⟨hid0, _, _, _, _⟩ := row_to_reminder_ok hr0x
  have hr0r : r0 = r :=
    pairwise_ne_unique hu hr0 hr (by rw [← hid0]; exact hrmid)
  have hs : r.sent = 0 := hr0r ▸ hr0s
  have hstate : (tick db now f).1 = db.map
      (fun r3 => if due.any (fun rm2 => rm2.id == r3.id && f rm2) then
        { r3 with sent := 1 } else r3) := by
    simp [tick, hok, foldl_markSent_eq_map]
  have hcond : due.any (fun rm2 => rm2.id == r.id && f rm2) = false := by
    cases hany : due.any (fun rm2 => rm2.id == r.id && f rm2) with
    | false => rfl
    | true =>
      obtain ⟨x, hxmem, hxp⟩ := List.any_eq_true.mp hany
      simp only [Bool.and_eq_true, beq_iff_eq] at hxp
      have := hfail x hxmem hxp.1
      rw [this] at hxp
      exact absurd hxp.2 Bool.false_ne_true
  have hmem1 : r ∈ (tick db now f).1 := by
    rw [hstate]
    refine List.mem_map.mpr ⟨r, hr, ?_⟩
    simp [hcond]
  refine ⟨hmem1, hs, ?_, ?_⟩
  · intro hok2 hle2
    obtain ⟨x, hx, hxid, _, _⟩ := mem_fetch_due_of hok2 hmem1 hs hle2
    exact ⟨x, hx, hxid⟩
  · intro hall hok2 hle2
    obtain ⟨x, hx, hxid, _, _⟩ := mem_fetch_due_of hok2 hmem1 hs hle2
    have hcond2 : l2.any (fun rm2 => rm2.id == r.id && f2 rm2) = true :=
      List.any_eq_true.mpr ⟨x, hx, by simp [hxid, hall x hxid]⟩
    have hstate2 : (tick (tick db now f).1 now2 f2).1 = (tick db now f).1.map
        (fun r3 => if l2.any (fun rm2 => rm2.id == r3.id && f2 rm2) then
          { r3 with sent := 1 } else r3) := by
      generalize (tick db now f).1 = db1 at hok2 ⊢
      simp [tick, hok2, foldl_markSent_eq_map]
    refine ⟨{ r with sent := 1 }, ?_, rfl, rfl⟩
    rw [hstate2]
    have himg := List.mem_map_of_mem
      (fun r3 => if l2.any (fun rm2 => rm2.id == r3.id && f2 rm2) then
        { r3 with sent := 1 } else r3) hmem1
    simp only [hcond2, if_true] at himg
    exact himg

/-- C6 witness: a single due record whose dispatch fails in the first cycle
stays unsent, is fetched again, and a second cycle with succeeding dispatch
marks it sent. -/
theorem dispatch_failure_retry_witness :
    ([⟨1, [50], "x", some [], 0⟩] : List Row).Pairwise (fun a b => a.id ≠ b.id) ∧
    (⟨1, [50], "x", some [], 0⟩ : Row) ∈ ([⟨1, [50], "x", some [], 0⟩] : List Row) ∧
    fetch_due [⟨1, [50], "x", some [], 0⟩] [50] = .ok [⟨1, [50], "x", [], 0⟩] ∧
    (∃ rm ∈ [(⟨1, [50], "x", [], 0⟩ : Reminder)], rm.id = 1) ∧
    (∀ rm ∈ [(⟨1, [50], "x", [], 0⟩ : Reminder)], rm.id = 1 →
      (fun _ : Reminder => false) rm = false) ∧
    ((⟨1, [50], "x", some [], 0⟩ : Row) ∈
        (tick [⟨1, [50], "x", some [], 0⟩] [50] (fun _ => false)).1 ∧
      (⟨1, [50], "x", some [], 0⟩ : Row).sent = 0 ∧
      (fetch_due (tick [⟨1, [50], "x", some [], 0⟩] [50] (fun _ => false)).1 [50] =
          .ok [⟨1, [50], "x", [], 0⟩] →
        bytesLe [50] [50] = true → ∃ x ∈ [(⟨1, [50], "x", [], 0⟩ : Reminder)], x.id = 1) ∧
      ((∀ x : Reminder, x.id = 1 → (fun _ : Reminder => true) x = true) →
        fetch_due (tick [⟨1, [50], "x", some [], 0⟩] [50] (fun _ => false)).1 [50] =
          .ok [⟨1, [50], "x", [], 0⟩] →
        bytesLe [50] [50] = true →
        ∃ r2 ∈ (tick (tick [⟨1, [50], "x", some [], 0⟩] [50] (fun _ => false)).1 [50]
            (fun _ => true)).1, r2.id = 1 ∧ r2.sent = 1)) := by
  refine ⟨by simp, List.mem_cons_self _ _, rfl,
    ⟨⟨1, [50], "x", [], 0⟩, List.mem_cons_self _ _, rfl⟩,
    fun rm _ _ => rfl, ?_⟩
  exact dispatch_failure_retry [⟨1, [50], "x", some [], 0⟩] [50] [50]
    (fun _ => false) (fun _ => true) ⟨1, [50], "x", some [], 0⟩
    [⟨1, [50], "x", [], 0⟩] [⟨1, [50], "x", [], 0⟩]
    (by simp) (List.mem_cons_self _ _) rfl
    ⟨⟨1, [50], "x", [], 0⟩, List.mem_cons_self _ _, rfl⟩
    (fun rm _ _ => rfl)

/-- C1: at a transport where both continue_conversation signatures raise and
the adapter exposes no claims API, _send_proactive attempts conventions A
and B once each and then returns success instead of propagating either
failure, so the scheduler marks the undelivered reminder sent. -/
theorem send_proactive_swallows_failures :
    send_proactive ⟨some "errA", some "errB", false, some "errC"⟩ =
      (.ok (), [.A, .B]) := rfl

theorem lookup_optEntry_ne (k k2 : String) (h : (k == k2) = false)
    (v : Option JVal) (rest : CRDict) :
    List.lookup k (optEntry k2 v ++ rest) = List.lookup k rest := by
  cases v with
  | none => rfl
  | some j => simp [optEntry, List.lookup, h]

theorem lookup_optEntry_ne0 (k k2 : String) (h : (k == k2) = false)
    (v : Option JVal) : List.lookup k (optEntry k2 v) = none := by
  cases v with
  | none => rfl
  | some j => simp [optEntry, List.lookup, h]

theorem lookup_optEntry_some (k : String) (j : JVal) (rest : CRDict) :
    List.lookup k (optEntry k (some j) ++ rest) = some j := by
  simp [optEntry, List.lookup]

theorem lookup_optEntry_some0 (k : String) (j : JVal) :
    List.lookup k (optEntry k (some j)) = some j := by
  simp [optEntry, List.lookup]

theorem lookup_optEntry_none (k : String) (rest : CRDict) :
    List.lookup k (optEntry k none ++ rest) = List.lookup k rest := rfl

theorem channelAccount_roundtrip (a : ChannelAccount) :
    channelAccountOfDict (channelAccountToDict a) = a := by
  obtain ⟨i, n, aad, ro⟩ := a
  cases i <;> cases n <;> cases aad <;> cases ro <;>
    simp [channelAccountOfDict, channelAccountToDict, optEntry, jvalToOptStr,
      List.lookup]

theorem conversationAccount_roundtrip (a : ConversationAccount) :
    conversationAccountOfDict (conversationAccountToDict a) = a := by
  obtain ⟨i, n, ct, te, aad, ro⟩ := a
  cases i <;> cases n <;> cases ct <;> cases te <;> cases aad <;> cases ro <;>
    simp [conversationAccountOfDict, conversationAccountToDict, optEntry,
      jvalToOptStr, List.lookup]

theorem get_cr_activity_id (cr : ConversationReference) :
    jvalToOptStr (List.lookup "activity_id" (model_dump_dict cr)) =
      cr.activity_id := by
  unfold model_dump_dict
  cases h : cr.activity_id with
  | some s =>
    simp only [Option.map_some']
    rw [lookup_optEntry_some]
    rfl
  | none =>
    simp only [Option.map_none']
    rw [lookup_optEntry_none,
      lookup_optEntry_ne "activity_id" "user" (by decide),
      lookup_optEntry_ne "activity_id" "bot" (by decide),
      lookup_optEntry_ne "activity_id" "conversation" (by decide),
      lookup_optEntry_ne "activity_id" "channel_id" (by decide),
      lookup_optEntry_ne "activity_id" "service_url" (by decide),
      lookup_optEntry_ne0 "activity_id" "locale" (by decide)]
    rfl

theorem get_cr_user (cr : ConversationReference) :
    jvalToOptChannelAccount (List.lookup "user" (model_dump_dict cr)) =
      cr.user := by
  unfold model_dump_dict
  rw [lookup_optEntry_ne "user" "activity_id" (by decide)]
  cases h : cr.user with
  | some a =>
    simp only [Option.map_some']
    rw [lookup_optEntry_some]
    simp [jvalToOptChannelAccount, channelAccount_roundtrip]
  | none =>
    simp only [Option.map_none']
    rw [lookup_optEntry_none,
      lookup_optEntry_ne "user" "bot" (by decide),
      lookup_optEntry_ne "user" "conversation" (by decide),
      lookup_optEntry_ne "user" "channel_id" (by decide),
      lookup_optEntry_ne "user" "service_url" (by decide),
      lookup_optEntry_ne0 "user" "locale" (by decide)]
    rfl

theorem get_cr_bot (cr : ConversationReference) :
    jvalToOptChannelAccount (List.lookup "bot" (model_dump_dict cr)) =
      cr.bot := by
  unfold model_dump_dict
  rw [lookup_optEntry_ne "bot" "activity_id" (by decide),
    lookup_optEntry_ne "bot" "user" (by decide)]
  cases h : cr.bot with
  | some a =>
    simp only [Option.map_some']
    rw [lookup_optEntry_some]
    simp [jvalToOptChannelAccount, channelAccount_roundtrip]
  | none =>
    simp only [Option.map_none']
    rw [lookup_optEntry_none,
      lookup_optEntry_ne "bot" "conversation" (by decide),
      lookup_optEntry_ne "bot" "channel_id" (by decide),
      lookup_optEntry_ne "bot" "service_url" (by decide),
      lookup_optEntry_ne0 "bot" "locale" (by decide)]
    rfl

theorem get_cr_conversation (cr : ConversationReference) :
    jvalToOptConversationAccount
        (List.lookup "conversation" (model_dump_dict cr)) =
      cr.conversation := by
  unfold model_dump_dict
  rw [lookup_optEntry_ne "conversation" "activity_id" (by decide),
    lookup_optEntry_ne "conversation" "user" (by decide),
    lookup_optEntry_ne "conversation" "bot" (by decide)]
  cases h : cr.conversation with
  | some a =>
    simp only [Option.map_some']
    rw [lookup_optEntry_some]
    simp [jvalToOptConversationAccount, conversationAccount_roundtrip]
  | none =>
    simp only [Option.map_none']
    rw [lookup_optEntry_none,
      lookup_optEntry_ne "conversation" "channel_id" (by decide),
      lookup_optEntry_ne "conversation" "service_url" (by decide),
      lookup_optEntry_ne0 "conversation" "locale" (by decide)]
    rfl

theorem get_cr_channel_id (cr : ConversationReference) :
    jvalToOptStr (List.lookup "channel_id" (model_dump_dict cr)) =
      cr.channel_id := by
  unfold model_dump_dict
  rw [lookup_optEntry_ne "channel_id" "activity_id" (by decide),
    lookup_optEntry_ne "channel_id" "user" (by decide),
    lookup_optEntry_ne "channel_id" "bot" (by decide),
    lookup_optEntry_ne "channel_id" "conversation" (by decide)]
  cases h : cr.channel_id with
  | some s =>
    simp only [Option.map_some']
    rw [lookup_optEntry_some]
    rfl
  | none =>
    simp only [Option.map_none']
    rw [lookup_optEntry_none,
      lookup_optEntry_ne "channel_id" "service_url" (by decide),
      lookup_optEntry_ne0 "channel_id" "locale" (by decide)]
    rfl

theorem get_cr_service_url (cr : ConversationReference) :
    jvalToOptStr (List.lookup "service_url" (model_dump_dict cr)) =
      cr.service_url := by
  unfold model_dump_dict
  rw [lookup_optEntry_ne "service_url" "activity_id" (by decide),
    lookup_optEntry_ne "service_url" "user" (by decide),
    lookup_optEntry_ne "service_url" "bot" (by decide),
    lookup_optEntry_ne "service_url" "conversation" (by decide),
    lookup_optEntry_ne "service_url" "channel_id" (by decide)]
  cases h : cr.service_url with
  | some s =>
    simp only [Option.map_some']
    rw [lookup_optEntry_some]
    rfl
  | none =>
    simp only [Option.map_none']
    rw [lookup_optEntry_none, lookup_optEntry_ne0 "service_url" "locale" (by decide)]
    rfl

theorem get_cr_locale (cr : ConversationReference) :
    jvalToOptStr (List.lookup "locale" (model_dump_dict cr)) =
      cr.locale := by
  unfold model_dump_dict
  rw [lookup_optEntry_ne "locale" "activity_id" (by decide),
    lookup_optEntry_ne "locale" "user" (by decide),
    lookup_optEntry_ne "locale" "bot" (by decide),
    lookup_optEntry_ne "locale" "conversation" (by decide),
    lookup_optEntry_ne "locale" "channel_id" (by decide),
    lookup_optEntry_ne "locale" "service_url" (by decide)]
  cases h : cr.locale with
  | some s =>
    simp only [Option.map_some']
    rw [lookup_optEntry_some0]
    rfl
  | none =>
    simp only [Option.map_none']
    rfl

theorem model_dump_roundtrip (cr : ConversationReference) :
    dict_to_conv_ref (model_dump_dict cr) = cr := by
  unfold dict_to_conv_ref
  rw [get_cr_activity_id, get_cr_user, get_cr_bot, get_cr_conversation,
    get_cr_channel_id, get_cr_service_url, get_cr_locale]

theorem jvalToOptStr_optStrJVal (v : Option String) :
    jvalToOptStr (some (optStrJVal v)) = v := by
  cases v <;> rfl

theorem jvalToOptStr_none : jvalToOptStr none = none := rfl

theorem fallback_roundtrip (cr : ConversationReference) :
    dict_to_conv_ref (fallback_conv_ref_to_dict cr) =
      ⟨none,
       some ⟨cr.user.bind (fun a => a.id), cr.user.bind (fun a => a.name),
             none, none⟩,
       some ⟨cr.bot.bind (fun a => a.id), cr.bot.bind (fun a => a.name),
             none, none⟩,
       some ⟨cr.conversation.bind (fun a => a.id), none, none, none, none,
             none⟩,
       cr.channel_id, cr.service_url, cr.locale⟩ := by
  simp [dict_to_conv_ref, fallback_conv_ref_to_dict, List.lookup,
    jvalToOptChannelAccount, jvalToOptConversationAccount,
    channelAccountOfDict, conversationAccountOfDict, jvalToOptStr_optStrJVal,
    jvalToOptStr_none]

/-- C9: decoding the dict produced by _conv_ref_to_dict (the dict json.dumps
writes and json.loads reads back unchanged) reconstructs a reference that
keeps every field delivery routes on, for every kind of live handle: on the
pydantic handle kinds the reconstruction is exact, and on the defensive
fallback path taken for the msrest botbuilder.schema handle the
reconstructed reference still carries the channel identity, routing
endpoint and locale together with the id and name of user and bot and the
id of the conversation (what the fallback drops, activity_id and the
remaining account sub-fields, is characterized by fallback_roundtrip). -/
theorem conv_ref_roundtrip (h : LiveHandle) :
    ((h.kind = HandleKind.pydantic_v2 ∨ h.kind = HandleKind.pydantic_v1) →
      dict_to_conv_ref (conv_ref_to_dict h) = h.ref) ∧
    ((dict_to_conv_ref (conv_ref_to_dict h)).channel_id = h.ref.channel_id ∧
     (dict_to_conv_ref (conv_ref_to_dict h)).service_url = h.ref.service_url ∧
     (dict_to_conv_ref (conv_ref_to_dict h)).locale = h.ref.locale ∧
     (dict_to_conv_ref (conv_ref_to_dict h)).conversation.bind (fun a => a.id)
        = h.ref.conversation.bind (fun a => a.id) ∧
     (dict_to_conv_ref (conv_ref_to_dict h)).user.bind (fun a => a.id)
        = h.ref.user.bind (fun a => a.id) ∧
     (dict_to_conv_ref (conv_ref_to_dict h)).user.bind (fun a => a.name)
        = h.ref.user.bind (fun a => a.name) ∧
     (dict_to_conv_ref (conv_ref_to_dict h)).bot.bind (fun a => a.id)
        = h.ref.bot.bind (fun a => a.id) ∧
     (dict_to_conv_ref (conv_ref_to_dict h)).bot.bind (fun a => a.name)
        = h.ref.bot.bind (fun a => a.name)) := by
  obtain ⟨kind, cr⟩ := h
  cases kind with
  | pydantic_v2 =>
    rw [show conv_ref_to_dict ⟨HandleKind.pydantic_v2, cr⟩ =
          model_dump_dict cr from rfl, model_dump_roundtrip cr]
    exact ⟨fun _ => rfl, rfl, rfl, rfl, rfl, rfl, rfl, rfl, rfl⟩
  | pydantic_v1 =>
    rw [show conv_ref_to_dict ⟨HandleKind.pydantic_v1, cr⟩ =
          model_dump_dict cr from rfl, model_dump_roundtrip cr]
    exact ⟨fun _ => rfl, rfl, rfl, rfl, rfl, rfl, rfl, rfl, rfl⟩
  | fallback =>
    refine ⟨?_, ?_⟩
    · rintro (hk | hk) <;> exact HandleKind.noConfusion hk
    · rw [show conv_ref_to_dict ⟨HandleKind.fallback, cr⟩ =
            fallback_conv_ref_to_dict cr from rfl, fallback_roundtrip cr]
      exact ⟨rfl, rfl, rfl, rfl, rfl, rfl, rfl, rfl⟩

/-- C9 witness: a concrete reference carrying every field, round-tripped
once through a pydantic handle (exactly) and once through the fallback
handle (delivery fields preserved). -/
theorem conv_ref_roundtrip_witness :
    (HandleKind.pydantic_v2 = HandleKind.pydantic_v2 ∨
      HandleKind.pydantic_v2 = HandleKind.pydantic_v1) ∧
    dict_to_conv_ref (conv_ref_to_dict ⟨HandleKind.pydantic_v2,
        ⟨some "a1", some ⟨some "u1", some "Ann", none, some "user"⟩,
         some ⟨some "b1", some "Bot", none, none⟩,
         some ⟨some "c1", none, none, some "t1", none, none⟩,
         some "msteams", some "https", some "en-US"⟩⟩) =
      ⟨some "a1", some ⟨some "u1", some "Ann", none, some "user"⟩,
       some ⟨some "b1", some "Bot", none, none⟩,
       some ⟨some "c1", none, none, some "t1", none, none⟩,
       some "msteams", some "https", some "en-US"⟩ ∧
    ((dict_to_conv_ref (conv_ref_to_dict ⟨HandleKind.fallback,
        ⟨some "a1", some ⟨some "u1", some "Ann", none, some "user"⟩,
         some ⟨some "b1", some "Bot", none, none⟩,
         some ⟨some "c1", none, none, some "t1", none, none⟩,
         some "msteams", some "https", some "en-US"⟩⟩)).channel_id =
          some "msteams" ∧
     (dict_to_conv_ref (conv_ref_to_dict ⟨HandleKind.fallback,
        ⟨some "a1", some ⟨some "u1", some "Ann", none, some "user"⟩,
         some ⟨some "b1", some "Bot", none, none⟩,
         some ⟨some "c1", none, none, some "t1", none, none⟩,
         some "msteams", some "https", some "en-US"⟩⟩)).service_url =
          some "https" ∧
     (dict_to_conv_ref (conv_ref_to_dict ⟨HandleKind.fallback,
        ⟨some "a1", some ⟨some "u1", some "Ann", none, some "user"⟩,
         some ⟨some "b1", some "Bot", none, none⟩,
         some ⟨some "c1", none, none, some "t1", none, none⟩,
         some "msteams", some "https", some "en-US"⟩⟩)).locale =
          some "en-US" ∧
     (dict_to_conv_ref (conv_ref_to_dict ⟨HandleKind.fallback,
        ⟨some "a1", some ⟨some "u1", some "Ann", none, some "user"⟩,
         some ⟨some "b1", some "Bot", none, none⟩,
         some ⟨some "c1", none, none, some "t1", none, none⟩,
         some "msteams", some "https", some "en-US"⟩⟩)).conversation.bind
          (fun a => a.id) = some "c1" ∧
     (dict_to_conv_ref (conv_ref_to_dict ⟨HandleKind.fallback,
        ⟨some "a1", some ⟨some "u1", some "Ann", none, some "user"⟩,
         some ⟨some "b1", some "Bot", none, none⟩,
         some ⟨some "c1", none, none, some "t1", none, none⟩,
         some "msteams", some "https", some "en-US"⟩⟩)).user.bind
          (fun a => a.id) = some "u1" ∧
     (dict_to_conv_ref (conv_ref_to_dict ⟨HandleKind.fallback,
        ⟨some "a1", some ⟨some "u1", some "Ann", none, some "user"⟩,
         some ⟨some "b1", some "Bot", none, none⟩,
         some ⟨some "c1", none, none, some "t1", none, none⟩,
         some "msteams", some "https", some "en-US"⟩⟩)).user.bind
          (fun a => a.name) = some "Ann" ∧
     (dict_to_conv_ref (conv_ref_to_dict ⟨HandleKind.fallback,
        ⟨some "a1", some ⟨some "u1", some "Ann", none, some "user"⟩,
         some ⟨some "b1", some "Bot", none, none⟩,
         some ⟨some "c1", none, none, some "t1", none, none⟩,
         some "msteams", some "https", some "en-US"⟩⟩)).bot.bind
          (fun a => a.id) = some "b1" ∧
     (dict_to_conv_ref (conv_ref_to_dict ⟨HandleKind.fallback,
        ⟨some "a1", some ⟨some "u1", some "Ann", none, some "user"⟩,
         some ⟨some "b1", some "Bot", none, none⟩,
         some ⟨some "c1", none, none, some "t1", none, none⟩,
         some "msteams", some "https", some "en-US"⟩⟩)).bot.bind
          (fun a => a.name) = some "Bot") :=
  ⟨Or.inl rfl,
   (conv_ref_roundtrip ⟨HandleKind.pydantic_v2,
      ⟨some "a1", some ⟨some "u1", some "Ann", none, some "user"⟩,
       some ⟨some "b1", some "Bot", none, none⟩,
       some ⟨some "c1", none, none, some "t1", none, none⟩,
       some "msteams", some "https", some "en-US"⟩⟩).1 (Or.inl rfl),
   (conv_ref_roundtrip ⟨HandleKind.fallback,
      ⟨some "a1", some ⟨some "u1", some "Ann", none, some "user"⟩,
       some ⟨some "b1", some "Bot", none, none⟩,
       some ⟨some "c1", none, none, some "t1", none, none⟩,
       some "msteams", some "https", some "en-US"⟩⟩).2⟩

theorem addMinutes_zero {t : UtcTime} (h : t.Valid) : addMinutes t 0 = t := by
  obtain ⟨y, mo, d, hh, mi, s, us⟩ := t
  simp only [UtcTime.Valid] at h
  obtain ⟨_, _, _, _, _, _, hhour, hmin, _, _⟩ := h
  simp only [addMinutes]
  have e1 : (hh * 60 + mi + 0) / (60 * 24) = 0 := by omega
  have e2 : (hh * 60 + mi + 0) / 60 % 24 = hh := by omega
  have e3 : (hh * 60 + mi + 0) % 60 = mi := by omega
  rw [e1, e2, e3]
  rfl

/-- C8: save_reminder computes due_at as now plus due_in_minutes minutes,
appends exactly one row holding the fresh AUTOINCREMENT id, the isoformat of
due_at, the given text and the dumped conversation reference with sent = 0,
and returns the fresh id together with due_at; with zero minutes the due
time equals the capture time itself. -/
theorem save_reminder_spec (db : List Row) (now : UtcTime) (m : Nat)
    (text : String) (handle : LiveHandle) (h : now.Valid) :
    save_reminder db now m text handle =
      (db ++ [{ id := nextId db, due_at_utc := isoBytes (addMinutes now m),
                text := text,
                conversation_ref := some (conv_ref_to_dict handle),
                sent := 0 }],
       nextId db, addMinutes now m) ∧
      addMinutes now 0 = now :=
  ⟨rfl, addMinutes_zero h⟩

/-- C8 witness: a concrete call five minutes ahead of a concrete capture
time, checked against the explicit inserted row and returned pair. -/
theorem save_reminder_spec_witness :
    (⟨2025, 6, 15, 12, 30, 0, 0⟩ : UtcTime).Valid ∧
    (save_reminder [] ⟨2025, 6, 15, 12, 30, 0, 0⟩ 5 "x"
        ⟨HandleKind.fallback,
         ⟨none, none, none, none, some "msteams", some "url", none⟩⟩ =
      ([] ++ [{ id := nextId [],
                due_at_utc := isoBytes (addMinutes ⟨2025, 6, 15, 12, 30, 0, 0⟩ 5),
                text := "x",
                conversation_ref := some (conv_ref_to_dict
                  ⟨HandleKind.fallback,
                   ⟨none, none, none, none, some "msteams", some "url", none⟩⟩),
                sent := 0 }],
       nextId [], addMinutes ⟨2025, 6, 15, 12, 30, 0, 0⟩ 5) ∧
      addMinutes ⟨2025, 6, 15, 12, 30, 0, 0⟩ 0 = ⟨2025, 6, 15, 12, 30, 0, 0⟩) :=
  ⟨by decide,
   save_reminder_spec [] ⟨2025, 6, 15, 12, 30, 0, 0⟩ 5 "x"
     ⟨HandleKind.fallback,
      ⟨none, none, none, none, some "msteams", some "url", none⟩⟩ (by decide)⟩

theorem padDigits_length (w : Nat) : ∀ n : Nat, (padDigits w n).length = w := by
  induction w with
  | zero => intro n; rfl
  | succ w ih => intro n; simp [padDigits, ih]

theorem bytesLt_append_same_len {a b : List Nat} (c d : List Nat)
    (h : a.length = b.length) :
    (bytesLt (a ++ c) (b ++ d) = true) ↔
      (bytesLt a b = true ∨ (a = b ∧ bytesLt c d = true)) := by
  induction a generalizing b with
  | nil =>
    cases b with
    | nil => simp [bytesLt]
    | cons y ys => simp at h
  | cons x xs ih =>
    cases b with
    | nil => simp at h
    | cons y ys =>
      simp only [List.length_cons] at h
      have h2 : xs.length = ys.length := by omega
      simp only [List.cons_append, bytesLt, Bool.or_eq_true, Bool.and_eq_true,
        beq_iff_eq, decide_eq_true_eq, List.cons.injEq, List.append_eq]
      rw [ih h2]
      constructor
      · rintro (hx | ⟨hxy, hrest⟩)
        · exact Or.inl (Or.inl hx)
        · rcases hrest with hlt | ⟨heq, hcd⟩
          · exact Or.inl (Or.inr ⟨hxy, hlt⟩)
          · exact Or.inr ⟨⟨hxy, heq⟩, hcd⟩
      · rintro ((hx | ⟨hxy, hlt⟩) | ⟨⟨hxy, heq⟩, hcd⟩)
        · exact Or.inl hx
        · exact Or.inr ⟨hxy, Or.inl hlt⟩
        · exact Or.inr ⟨hxy, Or.inr ⟨heq, hcd⟩⟩

theorem padDigits_lt_iff (w : Nat) : ∀ {m n : Nat}, m < 10 ^ w → n < 10 ^ w →
    ((bytesLt (padDigits w m) (padDigits w n) = true) ↔ m < n) := by
  induction w with
  | zero =>
    intro m n hm hn
    simp only [pow_zero, Nat.lt_one_iff] at hm hn
    subst hm
    subst hn
    simp [padDigits, bytesLt]
  | succ w ih =>
    intro m n hm hn
    have hp : (10 : Nat) ^ (w + 1) = 10 * 10 ^ w := by ring
    rw [hp] at hm hn
    have hm2 : m / 10 < 10 ^ w := by omega
    have hn2 : n / 10 < 10 ^ w := by omega
    simp only [padDigits]
    rw [bytesLt_append_same_len _ _ (by simp [padDigits_length])]
    rw [ih hm2 hn2]
    constructor
    · rintro (hlt | ⟨heq, hlast⟩)
      · omega
      · have hlast2 : m % 10 < n % 10 := by
          simp [bytesLt] at hlast
          omega
        have hq1 : ¬ (m / 10 < n / 10) := by
          rw [← ih hm2 hn2, heq, bytesLt_irrefl]
          simp
        have hq2 : ¬ (n / 10 < m / 10) := by
          rw [← ih hn2 hm2, ← heq, bytesLt_irrefl]
          simp
        omega
    · intro hmn
      by_cases hd : m / 10 < n / 10
      · exact Or.inl hd
      · have hdeq : m / 10 = n / 10 := by omega
        refine Or.inr ⟨by rw [hdeq], ?_⟩
        have hlast : m % 10 < n % 10 := by omega
        simp [bytesLt]
        omega

theorem padDigits_inj (w : Nat) {m n : Nat} (hm : m < 10 ^ w) (hn : n < 10 ^ w)
    (heq : padDigits w m = padDigits w n) : m = n := by
  have hq1 : ¬ (m < n) := by
    rw [← padDigits_lt_iff w hm hn, heq, bytesLt_irrefl]
    simp
  have hq2 : ¬ (n < m) := by
    rw [← padDigits_lt_iff w hn hm, ← heq, bytesLt_irrefl]
    simp
  omega

theorem bytesLt_field (w m n : Nat) (c d : List Nat) (hm : m < 10 ^ w)
    (hn : n < 10 ^ w) :
    (bytesLt (padDigits w m ++ c) (padDigits w n ++ d) = true) ↔
      (m < n ∨ (m = n ∧ bytesLt c d = true)) := by
  rw [bytesLt_append_same_len _ _ (by simp [padDigits_length])]
  rw [padDigits_lt_iff w hm hn]
  constructor
  · rintro (h | ⟨heq, hcd⟩)
    · exact Or.inl h
    · exact Or.inr ⟨padDigits_inj w hm hn heq, hcd⟩
  · rintro (h | ⟨rfl, hcd⟩)
    · exact Or.inl h
    · exact Or.inr ⟨rfl, hcd⟩

theorem bytesLt_cons_same (x : Nat) (c d : List Nat) :
    bytesLt (x :: c) (x :: d) = bytesLt c d := by
  simp [bytesLt]

theorem bytesLt_micro (m1 m2 : Nat) (hm1 : m1 < 10 ^ 6) (hm2 : m2 < 10 ^ 6) :
    (bytesLt
        ((if m1 == 0 then [] else 46 :: padDigits 6 m1) ++ [43, 48, 48, 58, 48, 48])
        ((if m2 == 0 then [] else 46 :: padDigits 6 m2) ++ [43, 48, 48, 58, 48, 48])
      = true) ↔ m1 < m2 := by
  by_cases hz1 : m1 = 0 <;> by_cases hz2 : m2 = 0
  · subst hz1; subst hz2
    simp [bytesLt_irrefl]
  · have hb1 : (m1 == 0) = true := beq_iff_eq.mpr hz1
    have hb2 : (m2 == 0) = false := beq_eq_false_iff_ne.mpr hz2
    simp only [hb1, hb2, if_true, Bool.false_eq_true, if_false, List.nil_append,
      List.cons_append]
    simp [bytesLt]
    omega
  · have hb1 : (m1 == 0) = false := beq_eq_false_iff_ne.mpr hz1
    have hb2 : (m2 == 0) = true := beq_iff_eq.mpr hz2
    simp only [hb1, hb2, if_true, Bool.false_eq_true, if_false, List.nil_append,
      List.cons_append]
    simp [bytesLt]
    omega
  · have hb1 : (m1 == 0) = false := beq_eq_false_iff_ne.mpr hz1
    have hb2 : (m2 == 0) = false := beq_eq_false_iff_ne.mpr hz2
    simp only [hb1, hb2, Bool.false_eq_true, if_false, List.cons_append]
    rw [bytesLt_cons_same, bytesLt_field 6 m1 m2 _ _ hm1 hm2]
    simp [bytesLt_irrefl]

theorem isoBytes_lt_iff (t1 t2 : UtcTime) (h1 : t1.Valid) (h2 : t2.Valid) :
    (bytesLt (isoBytes t1) (isoBytes t2) = true) ↔ chronoLt t1 t2 := by
  obtain ⟨hy1a, hy1b, hmo1a, hmo1b, hd1a, hd1b, hh1, hmi1, hs1, hus1⟩ := h1
  obtain ⟨hy2a, hy2b, hmo2a, hmo2b, hd2a, hd2b, hh2, hmi2, hs2, hus2⟩ := h2
  have p4 : (10 : Nat) ^ 4 = 10000 := by norm_num
  have p2 : (10 : Nat) ^ 2 = 100 := by norm_num
  have p6 : (10 : Nat) ^ 6 = 1000000 := by norm_num
  unfold isoBytes
  simp only [List.cons_append, List.nil_append]
  rw [bytesLt_field 4 t1.year t2.year _ _ (by omega) (by omega),
    bytesLt_cons_same,
    bytesLt_field 2 t1.month t2.month _ _ (by omega) (by omega),
    bytesLt_cons_same,
    bytesLt_field 2 t1.day t2.day _ _ (by omega) (by omega),
    bytesLt_cons_same,
    bytesLt_field 2 t1.hour t2.hour _ _ (by omega) (by omega),
    bytesLt_cons_same,
    bytesLt_field 2 t1.minute t2.minute _ _ (by omega) (by omega),
    bytesLt_cons_same,
    bytesLt_field 2 t1.second t2.second _ _ (by omega) (by omega),
    bytesLt_micro t1.microsecond t2.microsecond (by omega) (by omega)]
  rfl

theorem chrono_connex {t1 t2 : UtcTime} (a : ¬ chronoLt t1 t2)
    (b : ¬ chronoLt t2 t1) : t1 = t2 := by
  obtain ⟨y1, mo1, d1, hh1, mi1, s1, u1⟩ := t1
  obtain ⟨y2, mo2, d2, hh2, mi2, s2, u2⟩ := t2
  simp only [chronoLt] at a b
  simp only [UtcTime.mk.injEq]
  omega

/-- C10: for timestamps serialized as save_reminder and the tick loop
serialize them (datetime.isoformat of an aware UTC datetime, microseconds
omitted when zero), the bytewise text comparisons that fetch_due applies,
both the filter due_at_utc <= now and the ORDER BY key comparison, agree
exactly with chronological comparison of the field tuples. -/
theorem iso_text_order_agrees (t1 t2 : UtcTime) (h1 : t1.Valid)
    (h2 : t2.Valid) :
    (bytesLe (isoBytes t1) (isoBytes t2) = true ↔ chronoLe t1 t2) ∧
    (bytesLt (isoBytes t1) (isoBytes t2) = true ↔ chronoLt t1 t2) := by
  have hlt := isoBytes_lt_iff t1 t2 h1 h2
  have hlt2 := isoBytes_lt_iff t2 t1 h2 h1
  refine ⟨?_, hlt⟩
  unfold bytesLe chronoLe
  constructor
  · intro h
    simp only [Bool.or_eq_true, beq_iff_eq] at h
    rcases h with heq | hblt
    · right
      apply chrono_connex
      · intro hc
        have hb := hlt.mpr hc
        rw [heq, bytesLt_irrefl] at hb
        exact Bool.false_ne_true hb
      · intro hc
        have hb := hlt2.mpr hc
        rw [← heq, bytesLt_irrefl] at hb
        exact Bool.false_ne_true hb
    · exact Or.inl (hlt.mp hblt)
  · intro h
    rcases h with hc | rfl
    · have hb := hlt.mpr hc
      simp [hb]
    · simp

/-- C10 witness: a zero-microsecond timestamp against a nonzero-microsecond
timestamp in the same second, the case where the offset sign and the dot
compete lexicographically. -/
theorem iso_text_order_agrees_witness :
    (⟨2025, 1, 1, 0, 0, 0, 0⟩ : UtcTime).Valid ∧
    (⟨2025, 1, 1, 0, 0, 0, 500000⟩ : UtcTime).Valid ∧
    ((bytesLe (isoBytes ⟨2025, 1, 1, 0, 0, 0, 0⟩)
        (isoBytes ⟨2025, 1, 1, 0, 0, 0, 500000⟩) = true ↔
      chronoLe ⟨2025, 1, 1, 0, 0, 0, 0⟩ ⟨2025, 1, 1, 0, 0, 0, 500000⟩) ∧
     (bytesLt (isoBytes ⟨2025, 1, 1, 0, 0, 0, 0⟩)
        (isoBytes ⟨2025, 1, 1, 0, 0, 0, 500000⟩) = true ↔
      chronoLt ⟨2025, 1, 1, 0, 0, 0, 0⟩ ⟨2025, 1, 1, 0, 0, 0, 500000⟩)) :=
  ⟨by decide, by decide,
   iso_text_order_agrees ⟨2025, 1, 1, 0, 0, 0, 0⟩ ⟨2025, 1, 1, 0, 0, 0, 500000⟩
     (by decide) (by decide)⟩

end Reminders
